import Mathlib

/-!
Verification of the `opentelemetryexportermonitoring` Go exporter.

The repository contains a consolidated exporter variant (the file with
endpoint resolution, header merging, `doPOST` and the three payload
encoders — called "main variant" below) and an earlier draft variant
(per-signal URLs `traces_url`/`metrics_url`/`logs_url`, `postJSON`,
silent drop of signals without a URL — called "variant 2" below).
Both are embedded here, faithfully to their Go source.

Modelling conventions:
- Go `string` is Lean `String`; Go `map[string]T` is an association
  list `List (String × T)` together with `insertGo` (overwrite the
  first binding of the key in place, otherwise append) and first-match
  lookup `lookupA`; `pcommon.Map.Range` iterates in the map's storage
  order, modelled as list order.
- Go `time.Duration` is `Int` (nanoseconds); `5 * time.Second` is
  `5000000000`.
- HTTP exchange: the network outcome is `Option Response` — `none` is
  a connection-level failure of `client.Do`, `some r` a response with
  a status code and a body (bytes as `List Nat`).
- `json.Marshal` / `json.Unmarshal` into `any` are modelled as total
  functions between the value trees (`Iface`, Go `any`) and JSON trees
  (`Json`); the text layer is the identity on these trees.  A `jnum`
  carries the exact rational value of the written digits: exact for an
  `int64`, and for a `float64` the shortest decimal Go emits re-parses
  to the same `float64`, so carrying the `float64` value itself is
  observationally the same.  `json.Unmarshal` into `any` decodes every
  number into a `float64`: this is modelled by `roundFloat64`, genuine
  round-to-nearest-even onto 53-bit significands (the exponent is not
  range-limited: overflow to infinity and the subnormal precision loss
  below `2^-1022`, unreachable from `int64` inputs, are not modelled).
  JSON object member order is semantically irrelevant here (map
  comparison is key-based), so the object order of the Go encoder is
  not modelled.
-/

namespace OtelMon

/-! ## Go map as association list -/

/-- Go map assignment `m[k] = v`: overwrite the first binding of `k`
in place, otherwise append the new binding at the end. -/
def insertGo {α : Type} : List (String × α) → String → α → List (String × α)
  | [], k, v => [(k, v)]
  | (k1, w) :: t, k, v =>
    if k1 = k then (k1, v) :: t else (k1, w) :: insertGo t k v

/-- First-match lookup in an association list (Go map read). -/
def lookupA {α : Type} : List (String × α) → String → Option α
  | [], _ => none
  | (k1, w) :: t, k => if k1 = k then some w else lookupA t k

/-- Whether the association list binds the key. -/
def hasKey {α : Type} : List (String × α) → String → Bool
  | [], _ => false
  | (k1, _) :: t, k => k1 = k || hasKey t k

/-- All keys of the list are pairwise distinct (a Go map invariant). -/
def distinctKeys {α : Type} : List (String × α) → Bool
  | [] => true
  | (k, _) :: t => !hasKey t k && distinctKeys t

/-! ## Go string helpers (`strings.TrimSpace`, `strings.TrimRight`) -/

/-- ASCII whitespace as recognised by Go's `unicode.IsSpace`
(restricted to the ASCII range, which covers the inputs here). -/
def isGoSpace (c : Char) : Bool :=
  c = ' ' || c = '\t' || c = '\n' || c = '\r' || c = '\x0b' || c = '\x0c'

/-- `strings.TrimSpace`: strip leading and trailing whitespace. -/
def goTrimSpace (s : String) : String :=
  ⟨((s.data.dropWhile isGoSpace).reverse.dropWhile isGoSpace).reverse⟩

/-- `strings.TrimRight(s, "/")`: strip trailing slash characters. -/
def trimRightSlash (s : String) : String :=
  ⟨(s.data.reverse.dropWhile (fun c => c = '/')).reverse⟩

/-! ## Attribute values (`pcommon.Value`), Go `any`, JSON trees -/

/-- `pcommon.Value`: a tagged union over the OTLP attribute kinds.
`vempty` stands for `ValueTypeEmpty` and any kind outside the known
seven (the `default` branch of `valueToIface`). -/
inductive Value : Type where
  | vstr (s : String)
  | vint (n : Int)
  | vdouble (q : ℚ)
  | vbool (b : Bool)
  | vbytes (bs : List Nat)
  | vslice (l : List Value)
  | vmap (l : List (String × Value))
  | vempty

/-- Go `any` as produced by `valueToIface` and by `json.Unmarshal`
into `any`: `inull` is the untyped Go `nil`. -/
inductive Iface : Type where
  | inull
  | istr (s : String)
  | iint (n : Int)
  | idouble (q : ℚ)
  | ibool (b : Bool)
  | ibytes (bs : List Nat)
  | iarr (l : List Iface)
  | iobj (l : List (String × Iface))

/-- A JSON document tree. -/
inductive Json : Type where
  | jnull
  | jbool (b : Bool)
  | jnum (q : ℚ)
  | jstr (s : String)
  | jarr (l : List Json)
  | jobj (l : List (String × Json))

/-- Build a Go map by assigning each binding in order (`obj[k] = v`
inside a `Range`), starting from `acc`. -/
def goMapOfPairs {α : Type} : List (String × α) → List (String × α) → List (String × α)
  | [], acc => acc
  | (k, v) :: rest, acc => goMapOfPairs rest (insertGo acc k v)

/-! ## `valueToIface` (shared attribute conversion) -/

mutual

/-- `valueToIface` from the main variant: convert a `pcommon.Value` to
a Go `any` tree; the `default` branch (here `vempty`) yields `nil`. -/
def valueToIface : Value → Iface
  | .vstr s => .istr s
  | .vint n => .iint n
  | .vdouble q => .idouble q
  | .vbool b => .ibool b
  | .vbytes bs => .ibytes bs
  | .vslice l => .iarr (valuesToIfaces l)
  | .vmap l => .iobj (goMapOfPairs (pairsToIfaces l) [])
  | .vempty => .inull

/-- The `ValueTypeSlice` loop: convert each element in order. -/
def valuesToIfaces : List Value → List Iface
  | [] => []
  | v :: rest => valueToIface v :: valuesToIfaces rest

/-- The `ValueTypeMap` `Range` loop body: convert each binding. -/
def pairsToIfaces : List (String × Value) → List (String × Iface)
  | [] => []
  | (k, v) :: rest => (k, valueToIface v) :: pairsToIfaces rest

end

/-! ## Go `encoding/json` on `any` trees -/

/-- The standard base64 alphabet used by `encoding/json` for `[]byte`. -/
def b64Alphabet : List Char :=
  "ABCDEFGHIJKLMNOPQRSTUVWXYZabcdefghijklmnopqrstuvwxyz0123456789+/".data

/-- The base64 digit for a 6-bit group. -/
def b64Char (n : Nat) : Char := b64Alphabet.getD n 'A'

/-- Standard padded base64 of a byte sequence. -/
def base64Encode : List Nat → List Char
  | [] => []
  | [a] => [b64Char (a / 4), b64Char (a % 4 * 16), '=', '=']
  | [a, b] => [b64Char (a / 4), b64Char (a % 4 * 16 + b / 16), b64Char (b % 16 * 4), '=']
  | a :: b :: c :: rest =>
    b64Char (a / 4) :: b64Char (a % 4 * 16 + b / 16) ::
    b64Char (b % 16 * 4 + c / 64) :: b64Char (c % 64) :: base64Encode rest

mutual

/-- `json.Marshal` of a Go `any` tree: `int64` and `float64` both
become JSON numbers, `[]byte` becomes a base64 string, `nil` becomes
`null`. -/
def goMarshal : Iface → Json
  | .inull => .jnull
  | .istr s => .jstr s
  | .iint n => .jnum (n : ℚ)
  | .idouble q => .jnum q
  | .ibool b => .jbool b
  | .ibytes bs => .jstr ⟨base64Encode bs⟩
  | .iarr l => .jarr (marshalList l)
  | .iobj l => .jobj (marshalPairs l)

def marshalList : List Iface → List Json
  | [] => []
  | v :: rest => goMarshal v :: marshalList rest

def marshalPairs : List (String × Iface) → List (String × Json)
  | [] => []
  | (k, v) :: rest => (k, goMarshal v) :: marshalPairs rest

end

/-! ## The float64 value set and decimal-to-float64 rounding -/

/-- Divide out factors of 2, with explicit fuel (structural recursion,
so the kernel can evaluate it; halving needs at most `log2 n ≤ n`
steps). -/
def oddPartAux : Nat → Nat → Nat
  | 0, n => n
  | fuel + 1, n => if n % 2 == 0 && n != 0 then oddPartAux fuel (n / 2) else n

/-- The odd part of a natural number (divide out all factors of 2);
`oddPart 0 = 0`. -/
def oddPart (n : Nat) : Nat := oddPartAux n n

/-- Floor of the base-2 logarithm of a natural number, with explicit
fuel (structural recursion; `log2 n ≤ n` steps suffice). -/
def log2Aux : Nat → Nat → Nat
  | 0, _ => 0
  | fuel + 1, n => if n ≥ 2 then log2Aux fuel (n / 2) + 1 else 0

/-- Floor of the base-2 logarithm (`natLog2 n = 0` for `n ≤ 1`). -/
def natLog2 (n : Nat) : Nat := log2Aux n n

/-- Whether the rational is a (finite, normal-range-idealised) float64
value: `m * 2^e` with `|m| < 2^53` — the denominator in lowest terms
is a power of two and the odd part of the numerator fits in 53 bits. -/
def isFloat64Exact (q : ℚ) : Bool :=
  oddPart q.den = 1 && oddPart q.num.natAbs < 2 ^ 53

/-- Whether `2^e ≤ n / d` for positive naturals `n`, `d`, decided in
integer arithmetic. -/
def le2Pow (n d : Nat) (e : Int) : Bool :=
  if 0 ≤ e then d * 2 ^ e.toNat ≤ n else d ≤ n * 2 ^ (-e).toNat

/-- The floor of the base-2 logarithm of the positive rational
`n / d`: guess from the integer logs of numerator and denominator,
then correct by direct comparison (the guess is off by at most
one). -/
def floorLog2Nat (n d : Nat) : Int :=
  let g : Int := (natLog2 n : Int) - (natLog2 d : Int)
  if le2Pow n d (g + 1) then g + 1 else if le2Pow n d g then g else g - 1

/-- Decimal-to-float64 conversion as performed by `strconv.ParseFloat`
inside `json.Unmarshal`: an exactly representable value is returned
unchanged; otherwise the significand is rounded to 53 bits,
round-to-nearest with ties to even.  With `e` the floor of `log2 |q|`,
the magnitude scaled by `2^(52-e)` lies in `[2^52, 2^53)`; it is the
fraction `N / D` below, rounded to the integer significand `m` by
comparing twice the remainder with the denominator, and the result is
`± m · 2^(e-52)`.  All arithmetic is on numerator and denominator, so
the definition also evaluates inside the kernel. -/
def roundFloat64 (q : ℚ) : ℚ :=
  if isFloat64Exact q then q
  else
    let n := q.num.natAbs
    let d := q.den
    let e := floorLog2Nat n d
    let N := if 0 ≤ 52 - e then n * 2 ^ (52 - e).toNat else n
    let D := if 0 ≤ 52 - e then d else d * 2 ^ (e - 52).toNat
    let m0 := N / D
    let rem2 := 2 * (N % D)
    let m : Nat :=
      if D < rem2 then m0 + 1
      else if rem2 < D then m0
      else if m0 % 2 = 0 then m0 else m0 + 1
    let res : ℚ :=
      if 0 ≤ e - 52 then ((m * 2 ^ (e - 52).toNat : Nat) : ℚ)
      else mkRat (m : Int) (2 ^ (52 - e).toNat)
    if q < 0 then -res else res

mutual

/-- `json.Unmarshal` into a Go `any`: every JSON number is decoded as
a `float64` (rounding the written decimal to the nearest float64),
strings stay strings (base64 is not undone), objects become maps. -/
def goUnmarshalAny : Json → Iface
  | .jnull => .inull
  | .jbool b => .ibool b
  | .jnum q => .idouble (roundFloat64 q)
  | .jstr s => .istr s
  | .jarr l => .iarr (unmarshalList l)
  | .jobj l => .iobj (unmarshalPairs l)

def unmarshalList : List Json → List Iface
  | [] => []
  | v :: rest => goUnmarshalAny v :: unmarshalList rest

def unmarshalPairs : List (String × Json) → List (String × Iface)
  | [] => []
  | (k, v) :: rest => (k, goUnmarshalAny v) :: unmarshalPairs rest

end

/-! ## Structural comparison of a re-parsed tree with the original -/

/-- Every key of `m` is bound in `l`. -/
def keysCovered {α β : Type} (m : List (String × β)) (l : List (String × α)) : Bool :=
  m.all (fun kw => (lookupA l kw.1).isSome)

mutual

/-- Structural equality between an original attribute tree and a
re-parsed Go `any` tree.  Numbers are compared by numeric value
(a JSON number does not distinguish `int64` from `float64`) and maps
are compared by key lookup (JSON object member order is not
semantic); every other kind must match exactly. -/
def structEq : Value → Iface → Bool
  | .vstr s, .istr t => s == t
  | .vint n, .iint m => n == m
  | .vint n, .idouble q => (n : ℚ) == q
  | .vdouble q, .idouble r => q == r
  | .vdouble q, .iint m => q == (m : ℚ)
  | .vbool b, .ibool c => b == c
  | .vbytes bs, .ibytes cs => bs == cs
  | .vslice l, .iarr m => structEqList l m
  | .vmap l, .iobj m => structEqMapFwd l m && keysCovered m l
  | .vempty, .inull => true
  | _, _ => false

def structEqList : List Value → List Iface → Bool
  | [], [] => true
  | v :: vs, w :: ws => structEq v w && structEqList vs ws
  | _, _ => false

def structEqMapFwd : List (String × Value) → List (String × Iface) → Bool
  | [], _ => true
  | (k, v) :: rest, m =>
    (match lookupA m k with
     | some w => structEq v w
     | none => false) && structEqMapFwd rest m

end

mutual

/-- No byte-sequence value occurs anywhere in the tree. -/
def noBytes : Value → Bool
  | .vbytes _ => false
  | .vslice l => noBytesList l
  | .vmap l => noBytesPairs l
  | _ => true

def noBytesList : List Value → Bool
  | [] => true
  | v :: rest => noBytes v && noBytesList rest

def noBytesPairs : List (String × Value) → Bool
  | [] => true
  | (_, v) :: rest => noBytes v && noBytesPairs rest

end

mutual

/-- Every map node in the tree has pairwise distinct keys (the
`pcommon.Map` invariant). -/
def uniqKeys : Value → Bool
  | .vslice l => uniqKeysList l
  | .vmap l => distinctKeys l && uniqKeysPairs l
  | _ => true

def uniqKeysList : List Value → Bool
  | [] => true
  | v :: rest => uniqKeys v && uniqKeysList rest

def uniqKeysPairs : List (String × Value) → Bool
  | [] => true
  | (_, v) :: rest => uniqKeys v && uniqKeysPairs rest

end

mutual

/-- Every numeric leaf of the tree is exactly representable as a
float64.  For double values this is the `float64` typing invariant of
`pcommon.Value` itself; for int values it restricts to the range where
`json.Unmarshal`'s float64 decoding is exact (odd part below
`2^53`). -/
def floatSafe : Value → Bool
  | .vint n => isFloat64Exact (n : ℚ)
  | .vdouble q => isFloat64Exact q
  | .vslice l => floatSafeList l
  | .vmap l => floatSafePairs l
  | _ => true

def floatSafeList : List Value → Bool
  | [] => true
  | v :: rest => floatSafe v && floatSafeList rest

def floatSafePairs : List (String × Value) → Bool
  | [] => true
  | (_, v) :: rest => floatSafe v && floatSafePairs rest

end

/-! ## `attrsToMap` -/

/-- The optional rename table applied to a key (`rename[k]` when
present, otherwise the key itself). -/
def renameKey (rename : Option (List (String × String))) (k : String) : String :=
  match rename with
  | none => k
  | some r =>
    match lookupA r k with
    | some alt => alt
    | none => k

/-- `attrsToMap`: build the output Go map by assigning
`out[renamed key] = valueToIface v` for each attribute in range
order. -/
def attrsToMap (attrs : List (String × Value)) (rename : Option (List (String × String))) :
    List (String × Iface) :=
  goMapOfPairs (attrs.map (fun kv => (renameKey rename kv.1, valueToIface kv.2))) []

/-- The metric encoder's rename table for well-known resource
attributes. -/
def metricRename : List (String × String) :=
  [("service.name", "service"),
   ("deployment.environment", "environment"),
   ("cloud.region", "region")]

/-! ## Trace encoder (`pushTraces`, main variant) -/

/-- A trace tree: resource spans, each a list of scope spans, each a
list of spans; only the span name is consumed by the encoder, so a
span is its name. -/
def Traces : Type := List (List (List String))

/-- `ptrace.Traces.SpanCount`: the number of spans in the whole
tree. -/
def spanCount (td : Traces) : Nat :=
  td.foldl (fun a rs => rs.foldl (fun b ss => b + ss.length) a) 0

/-- The innermost loop of `pushTraces`: append span names while fewer
than 10 have been collected. -/
def collectSpanNames (acc : List String) : List String → List String
  | [] => acc
  | n :: rest =>
    if acc.length < 10 then collectSpanNames (acc ++ [n]) rest else acc

/-- The scope-spans loop of `pushTraces`. -/
def collectScopeNames (acc : List String) : List (List String) → List String
  | [] => acc
  | ss :: rest =>
    if acc.length < 10 then collectScopeNames (collectSpanNames acc ss) rest else acc

/-- The resource-spans loop of `pushTraces`. -/
def collectResourceNames (acc : List String) : List (List (List String)) → List String
  | [] => acc
  | rs :: rest =>
    if acc.length < 10 then collectResourceNames (collectScopeNames acc rs) rest else acc

/-- The payload built by `pushTraces`:
`{"traces": {"spans": td.SpanCount(), "sample_names": names}}`. -/
structure TracePayload where
  spans : Nat
  sampleNames : List String

/-- `pushTraces` payload construction (main variant). -/
def encodeTraces (td : Traces) : TracePayload :=
  { spans := spanCount td, sampleNames := collectResourceNames [] td }

/-! ## Metric encoder (`pushMetrics`, main variant) -/

/-- The `pmetric.NumberDataPoint` value: `ValueType` is either int or
double. -/
inductive NumberVal : Type where
  | nvInt (n : Int)
  | nvDouble (q : ℚ)

/-- A number data point: timestamp (`pcommon.Timestamp`, uint64
nanoseconds) and value. -/
structure NumberDP where
  ts : Nat
  val : NumberVal

/-- The data of one metric: gauge and sum carry number data points,
`other` stands for every remaining `pmetric.MetricType`. -/
inductive MetricData : Type where
  | gauge (dps : List NumberDP)
  | sum (dps : List NumberDP)
  | other

/-- One metric series: name and data. -/
structure Metric where
  name : String
  data : MetricData

/-- One resource-metrics group: resource attributes and the metrics of
each scope. -/
structure ResourceMetricsG where
  attrs : List (String × Value)
  scopes : List (List Metric)

/-- `numberValue`: the int value when the point's type is int,
otherwise the double value. -/
def numberValue (dp : NumberDP) : Iface :=
  match dp.val with
  | .nvInt n => .iint n
  | .nvDouble q => .idouble q

/-- One step of the metric loop body: for a gauge or sum with at least
one data point, take `dps.At(dps.Len()-1)`, record its value under the
metric's name and raise the group timestamp if this point's timestamp
is greater. -/
def metricStep (acc : List (String × Iface) × Nat) (mx : Metric) :
    List (String × Iface) × Nat :=
  match mx.data with
  | .gauge dps =>
    match dps.getLast? with
    | some dp => (insertGo acc.1 mx.name (numberValue dp),
                  if dp.ts > acc.2 then dp.ts else acc.2)
    | none => acc
  | .sum dps =>
    match dps.getLast? with
    | some dp => (insertGo acc.1 mx.name (numberValue dp),
                  if dp.ts > acc.2 then dp.ts else acc.2)
    | none => acc
  | .other => acc

/-- The encoded form of one resource-metrics group:
`{"timestamp": ts, "properties": props, "values": values}`. -/
structure MetricGroupOut where
  timestamp : Nat
  properties : List (String × Iface)
  values : List (String × Iface)

/-- `pushMetrics` body for one resource-metrics group (main variant):
properties from the resource attributes under `metricRename`, then the
scope/metric loops over `metricStep` starting from an empty values map
and timestamp zero. -/
def encodeResourceMetrics (rm : ResourceMetricsG) : MetricGroupOut :=
  let props := attrsToMap rm.attrs (some metricRename)
  let vt := rm.scopes.foldl (fun acc ms => ms.foldl metricStep acc) ([], 0)
  { timestamp := vt.2, properties := props, values := vt.1 }

/-! ## Log encoder (`pushLogs`, main variant) -/

/-- One log record: timestamp, severity text, body and attributes. -/
structure LogRecord where
  ts : Nat
  severityText : String
  body : Value
  attrs : List (String × Value)

/-- `pushLogs` record construction (main variant): the Go map literal
`{"timestamp": ..., "severity": ..., "body": ..., "attrs": ...,
"resource": res}` with `res = attrsToMap(resource attributes, nil)`. -/
def encodeLogRecord (resAttrs : List (String × Value)) (lr : LogRecord) : Iface :=
  .iobj (goMapOfPairs
    [("timestamp", .iint (Int.ofNat lr.ts)),
     ("severity", .istr lr.severityText),
     ("body", valueToIface lr.body),
     ("attrs", .iobj (attrsToMap lr.attrs none)),
     ("resource", .iobj (attrsToMap resAttrs none))] [])

/-! ## Endpoint resolution and construction (main variant) -/

/-- The main variant's `Config`: global `endpoint`, per-signal
endpoints, `timeout` (nanoseconds) and `headers`. -/
structure Config1 where
  endpoint : String
  tracesEndpoint : String
  metricsEndpoint : String
  logsEndpoint : String
  timeout : Int
  headers : List (String × String)

/-- Resolved traces URL: `tURL := TrimSpace(cfg.TracesEndpoint)`; if
empty and `base := TrimRight(cfg.Endpoint, "/")` is non-empty, it
becomes `base + "/v1/traces"`. -/
def resolvedTraces (cfg : Config1) : String :=
  let base := trimRightSlash cfg.endpoint
  let t := goTrimSpace cfg.tracesEndpoint
  if t = "" ∧ base ≠ "" then base ++ "/v1/traces" else t

/-- Resolved metrics URL (same scheme with `/v1/metrics`). -/
def resolvedMetrics (cfg : Config1) : String :=
  let base := trimRightSlash cfg.endpoint
  let m := goTrimSpace cfg.metricsEndpoint
  if m = "" ∧ base ≠ "" then base ++ "/v1/metrics" else m

/-- Resolved logs URL (same scheme with `/v1/logs`). -/
def resolvedLogs (cfg : Config1) : String :=
  let base := trimRightSlash cfg.endpoint
  let l := goTrimSpace cfg.logsEndpoint
  if l = "" ∧ base ≠ "" then base ++ "/v1/logs" else l

/-- The default request headers of the main variant. -/
def defaultHeaders : List (String × String) :=
  [("Content-Type", "application/json"), ("Accept", "application/json")]

/-- Header construction of the main variant: defaults, then each
configured header assigned over them (`h[k] = v`). -/
def buildHeaders (cfgHeaders : List (String × String)) : List (String × String) :=
  goMapOfPairs cfgHeaders defaultHeaders

/-- The configuration error of the main variant, carrying the three
resolved URL strings that the message formats with `%q`. -/
structure ConfigError1 where
  traces : String
  metrics : String
  logs : String

/-- The constructed main-variant exporter state. -/
structure Exporter1 where
  headers : List (String × String)
  tracesURL : String
  metricsURL : String
  logsURL : String
  clientTimeout : Int

/-- `newMonitoringExporter` (main variant): build headers, resolve the
three URLs, error if any of them is empty, default the client timeout
to 5s when the configured timeout is not positive. -/
def newMonitoringExporter (cfg : Config1) : Except ConfigError1 Exporter1 :=
  let h := buildHeaders cfg.headers
  let t := resolvedTraces cfg
  let m := resolvedMetrics cfg
  let l := resolvedLogs cfg
  if t = "" ∨ m = "" ∨ l = "" then
    .error ⟨t, m, l⟩
  else
    .ok { headers := h, tracesURL := t, metricsURL := m, logsURL := l,
          clientTimeout := if cfg.timeout ≤ 0 then 5000000000 else cfg.timeout }

/-! ## HTTP transport -/

/-- An HTTP response: status code and body bytes. -/
structure Response where
  status : Nat
  body : List Nat
deriving DecidableEq

/-- The error returned by `doPOST` (main variant): a transport error
from `client.Do`, or a status error carrying the status code and the
body excerpt read through `io.LimitReader(resp.Body, 4096)`. -/
inductive DoPostErr : Type where
  | transport
  | status (code : Nat) (excerpt : List Nat)
deriving DecidableEq

/-- `doPOST` outcome classification (main variant): success exactly
when `200 <= status < 300`. -/
def doPOSTClassify (r : Option Response) : Except DoPostErr Unit :=
  match r with
  | none => .error .transport
  | some resp =>
    if resp.status < 200 ∨ resp.status ≥ 300 then
      .error (.status resp.status (resp.body.take 4096))
    else
      .ok ()

/-- The error returned by `postJSON` (variant 2): a transport error,
or a status error carrying the URL and the status code only. -/
inductive PostJsonErr : Type where
  | transport
  | status (url : String) (code : Nat)
deriving DecidableEq

/-- `postJSON` outcome classification (variant 2). -/
def postJSONClassify (url : String) (r : Option Response) : Except PostJsonErr Unit :=
  match r with
  | none => .error .transport
  | some resp =>
    if resp.status < 200 ∨ resp.status ≥ 300 then
      .error (.status url resp.status)
    else
      .ok ()

/-- The request headers set by `postJSON` (variant 2):
`Content-Type: application/json` first, then every configured header
assigned over it. -/
def postJSONHeaders (cfgHeaders : List (String × String)) : List (String × String) :=
  goMapOfPairs cfgHeaders [("Content-Type", "application/json")]

/-! ## Variant 2: per-signal URLs, silent drop -/

/-- Variant 2 `Config`: three per-signal URLs used verbatim, headers
and the helper timeout. -/
structure Config2 where
  tracesURL : String
  metricsURL : String
  logsURL : String
  headers : List (String × String)
  timeout : Int

/-- The constructed variant-2 exporter state. -/
structure Exporter2 where
  tracesURL : String
  metricsURL : String
  logsURL : String
  headers : List (String × String)
  clientTimeout : Int

/-- `newMonitoringExporter` (variant 2): error exactly when all three
URLs are empty; the client timeout is the configured one, with no
default applied here. -/
def newMonitoringExporter2 (cfg : Config2) : Except Unit Exporter2 :=
  if cfg.tracesURL = "" ∧ cfg.metricsURL = "" ∧ cfg.logsURL = "" then
    .error ()
  else
    .ok { tracesURL := cfg.tracesURL, metricsURL := cfg.metricsURL,
          logsURL := cfg.logsURL, headers := cfg.headers,
          clientTimeout := cfg.timeout }

/-- `pushTraces` (variant 2): return `nil` before doing anything when
the traces URL is empty, otherwise deliver (OTLP marshalling is
infallible on well-formed trees and is not modelled). -/
def pushTraces2 (e : Exporter2) (net : Option Response) : Except PostJsonErr Unit :=
  if e.tracesURL = "" then .ok () else postJSONClassify e.tracesURL net

/-- `pushMetrics` (variant 2). -/
def pushMetrics2 (e : Exporter2) (net : Option Response) : Except PostJsonErr Unit :=
  if e.metricsURL = "" then .ok () else postJSONClassify e.metricsURL net

/-- `pushLogs` (variant 2). -/
def pushLogs2 (e : Exporter2) (net : Option Response) : Except PostJsonErr Unit :=
  if e.logsURL = "" then .ok () else postJSONClassify e.logsURL net

/-- `Except.isOk` as a plain function. -/
def exceptOk {ε α : Type} : Except ε α → Bool
  | .ok _ => true
  | .error _ => false

/-- Field access on a decoded JSON object. -/
def objLookup (i : Iface) (k : String) : Option Iface :=
  match i with
  | .iobj l => lookupA l k
  | _ => none

/-! ## The endpoint-resolution formula spelled by the spec -/

/-- The resolution formula exactly as the claim words it: per-signal
endpoint (whitespace-trimmed) when non-empty, else
`trimRight(global, "/") + suffix` when THE GLOBAL ENDPOINT is
non-empty, else absent.  Written from the claim for comparison with
`resolvedTraces` and friends. -/
def specResolveOrig (global specific suffix : String) : String :=
  if goTrimSpace specific ≠ "" then goTrimSpace specific
  else if global ≠ "" then trimRightSlash global ++ suffix
  else ""

/-- The resolution formula with the guard the code actually uses: the
fallback applies when `trimRight(global, "/")` is non-empty. -/
def specResolveFixed (global specific suffix : String) : String :=
  if goTrimSpace specific ≠ "" then goTrimSpace specific
  else if trimRightSlash global ≠ "" then trimRightSlash global ++ suffix
  else ""

/-! # Claims -/

/-! ## C8: attribute conversion is total, unknown kinds become nil -/

/-- C8: `valueToIface` is a total function on attribute values
(arbitrarily nested sequences and maps included — it is a terminating
total Lean function), and it returns the no-value marker `nil`
exactly on the value whose kind is outside
string/int/double/bool/bytes/sequence/map (`vempty`, the `default`
branch). -/
theorem c8_value_conversion_total (v : Value) :
    valueToIface v = .inull ↔ v = .vempty := by
  cases v <;> simp [valueToIface]

/-! ## C9: metric property rename collision -/

/-- C9: with resource attributes binding both `service.name` and
`service` (in that storage order), the metric encoder's properties map
holds a single `service` entry carrying the plain `service` value; in
the opposite storage order the single entry carries the `service.name`
value — so one of the two is lost and which one survives depends on
the map iteration order. -/
theorem c9_rename_collision :
    (encodeResourceMetrics
      ⟨[("service.name", .vstr "from-service-name"), ("service", .vstr "from-service")],
       []⟩).properties = [("service", .istr "from-service")]
    ∧ (encodeResourceMetrics
      ⟨[("service", .vstr "from-service"), ("service.name", .vstr "from-service-name")],
       []⟩).properties = [("service", .istr "from-service-name")]
    ∧ ("from-service" : String) ≠ "from-service-name" :=
  ⟨rfl, rfl, by decide⟩

/-! ## C10: client timeout defaulting -/

/-- C10: whenever main-variant construction succeeds, the HTTP client
timeout is exactly 5s (`5000000000` ns) if the configured timeout is
not positive, and the configured value itself if it is positive. -/
theorem c10_timeout_default (cfg : Config1) (e : Exporter1)
    (h : newMonitoringExporter cfg = .ok e) :
    (cfg.timeout ≤ 0 → e.clientTimeout = 5000000000)
    ∧ (0 < cfg.timeout → e.clientTimeout = cfg.timeout) := by
  simp only [newMonitoringExporter] at h
  by_cases hc : resolvedTraces cfg = "" ∨ resolvedMetrics cfg = "" ∨ resolvedLogs cfg = ""
  · rw [if_pos hc] at h
    exact absurd h (by simp)
  · rw [if_neg hc] at h
    simp only [Except.ok.injEq] at h
    subst h
    constructor
    · intro ht; simp [ht]
    · intro ht
      have hn : ¬ cfg.timeout ≤ 0 := by omega
      simp [hn]

/-- Witness for C10 at a concrete configuration with a non-positive
timeout and one with a positive timeout. -/
theorem c10_timeout_default_witness :
    (∃ e, newMonitoringExporter ⟨"http://e", "", "", "", -3, []⟩ = .ok e
          ∧ e.clientTimeout = 5000000000)
    ∧ (∃ e, newMonitoringExporter ⟨"http://e", "", "", "", 7, []⟩ = .ok e
          ∧ e.clientTimeout = 7) := by
  constructor
  · obtain ⟨e, he⟩ : ∃ e, newMonitoringExporter ⟨"http://e", "", "", "", -3, []⟩ = .ok e :=
      ⟨_, rfl⟩
    exact ⟨e, he, (c10_timeout_default _ e he).1 (by decide)⟩
  · obtain ⟨e, he⟩ : ∃ e, newMonitoringExporter ⟨"http://e", "", "", "", 7, []⟩ = .ok e :=
      ⟨_, rfl⟩
    exact ⟨e, he, (c10_timeout_default _ e he).2 (by decide)⟩

/-! ## C3: endpoint resolution -/

/-- C3 counterexample: with global endpoint `"/"` and no per-signal
endpoints, the claim's formula yields `"/v1/traces"` (the global
endpoint is non-empty), but the code resolves the traces endpoint to
absent, because its guard is on `TrimRight(endpoint, "/")`, which is
empty. -/
theorem c3_endpoint_resolution_counterexample :
    specResolveOrig "/" "" "/v1/traces" = "/v1/traces"
    ∧ resolvedTraces ⟨"/", "", "", "", 0, []⟩ = ""
    ∧ ("" : String) ≠ "/v1/traces" :=
  ⟨by decide, by decide, by decide⟩

/-- Each resolved URL of the code equals the fixed formula. -/
theorem resolve_eq_specFixed (g s sfx : String) :
    (if goTrimSpace s = "" ∧ trimRightSlash g ≠ "" then trimRightSlash g ++ sfx
     else goTrimSpace s) = specResolveFixed g s sfx := by
  by_cases h1 : goTrimSpace s = "" <;> by_cases h2 : trimRightSlash g = "" <;>
    simp [specResolveFixed, h1, h2]

/-- C3 amended: per signal, the resolved endpoint is the per-signal
endpoint verbatim (after trimming whitespace) when that is non-empty,
otherwise `trimRight(global, "/") + "/v1/<signal>"` when
`trimRight(global, "/")` is non-empty (not: when the global endpoint
is non-empty), otherwise absent; in particular a set per-signal
endpoint is used exactly, regardless of the global endpoint. -/
theorem c3_endpoint_resolution_amended (cfg : Config1) :
    resolvedTraces cfg = specResolveFixed cfg.endpoint cfg.tracesEndpoint "/v1/traces"
    ∧ resolvedMetrics cfg = specResolveFixed cfg.endpoint cfg.metricsEndpoint "/v1/metrics"
    ∧ resolvedLogs cfg = specResolveFixed cfg.endpoint cfg.logsEndpoint "/v1/logs"
    ∧ (goTrimSpace cfg.tracesEndpoint ≠ "" →
        resolvedTraces cfg = goTrimSpace cfg.tracesEndpoint)
    ∧ (goTrimSpace cfg.metricsEndpoint ≠ "" →
        resolvedMetrics cfg = goTrimSpace cfg.metricsEndpoint)
    ∧ (goTrimSpace cfg.logsEndpoint ≠ "" →
        resolvedLogs cfg = goTrimSpace cfg.logsEndpoint) := by
  refine ⟨resolve_eq_specFixed .., resolve_eq_specFixed .., resolve_eq_specFixed ..,
          ?_, ?_, ?_⟩ <;>
    · intro h
      simp [resolvedTraces, resolvedMetrics, resolvedLogs, h]

/-- Witness for C3 at a configuration with both a global endpoint and
a per-signal traces endpoint: the per-signal endpoint wins. -/
theorem c3_endpoint_resolution_amended_witness :
    resolvedTraces ⟨"http://global", " http://special ", "", "", 0, []⟩ = "http://special" :=
  ((c3_endpoint_resolution_amended _).2.2.2.1 (by decide)).trans (by decide)

/-! ## C1: construction failure and silent drop -/

/-- C1 counterexample: a configuration whose resolved traces endpoint
is present while metrics and logs are absent.  The claim says
construction succeeds (not all three are absent) with the absent
signals dropped; the main variant's constructor fails, because its
check is `tURL == "" || mURL == "" || lURL == ""`. -/
theorem c1_construction_counterexample :
    resolvedTraces ⟨"", "http://t", "", "", 0, []⟩ = "http://t"
    ∧ ¬(resolvedTraces ⟨"", "http://t", "", "", 0, []⟩ = ""
        ∧ resolvedMetrics ⟨"", "http://t", "", "", 0, []⟩ = ""
        ∧ resolvedLogs ⟨"", "http://t", "", "", 0, []⟩ = "")
    ∧ exceptOk (newMonitoringExporter ⟨"", "http://t", "", "", 0, []⟩) = false :=
  ⟨by decide, by decide, by decide⟩

/-- C1 amended: the main variant's construction succeeds iff ALL
THREE resolved endpoints are present (it fails as soon as at least one
is absent, so it never drops a signal).  Variant 2 is where the
claimed behaviour lives: its construction fails iff all three
configured URLs are empty, and a push whose URL is empty is a no-op
success, never an error. -/
theorem c1_construction_amended (c1 : Config1) (c2 : Config2) (e2 : Exporter2)
    (net : Option Response) :
    (exceptOk (newMonitoringExporter c1) = true ↔
      (resolvedTraces c1 ≠ "" ∧ resolvedMetrics c1 ≠ "" ∧ resolvedLogs c1 ≠ ""))
    ∧ (exceptOk (newMonitoringExporter2 c2) = true ↔
      ¬(c2.tracesURL = "" ∧ c2.metricsURL = "" ∧ c2.logsURL = ""))
    ∧ (e2.tracesURL = "" → pushTraces2 e2 net = .ok ())
    ∧ (e2.metricsURL = "" → pushMetrics2 e2 net = .ok ())
    ∧ (e2.logsURL = "" → pushLogs2 e2 net = .ok ()) := by
  refine ⟨?_, ?_, ?_, ?_, ?_⟩
  · by_cases hc : resolvedTraces c1 = "" ∨ resolvedMetrics c1 = "" ∨ resolvedLogs c1 = ""
    · have hf : exceptOk (newMonitoringExporter c1) = false := by
        simp [newMonitoringExporter, if_pos hc, exceptOk]
      rw [hf]
      simp only [Bool.false_eq_true, false_iff]
      tauto
    · have ht : exceptOk (newMonitoringExporter c1) = true := by
        simp [newMonitoringExporter, if_neg hc, exceptOk]
      rw [ht]
      push_neg at hc
      simpa using hc
  · by_cases hc : c2.tracesURL = "" ∧ c2.metricsURL = "" ∧ c2.logsURL = ""
    · have hf : exceptOk (newMonitoringExporter2 c2) = false := by
        simp [newMonitoringExporter2, if_pos hc, exceptOk]
      rw [hf]
      simp only [Bool.false_eq_true, false_iff, not_not]
      exact hc
    · have ht : exceptOk (newMonitoringExporter2 c2) = true := by
        simp [newMonitoringExporter2, if_neg hc, exceptOk]
      rw [ht]
      simpa using hc
  · intro h; simp [pushTraces2, h]
  · intro h; simp [pushMetrics2, h]
  · intro h; simp [pushLogs2, h]

/-- Witness for C1: a global-endpoint configuration constructs
successfully in the main variant, and a variant-2 exporter without a
traces URL answers a traces push with a no-op success. -/
theorem c1_construction_amended_witness :
    exceptOk (newMonitoringExporter ⟨"http://e", "", "", "", 0, []⟩) = true
    ∧ pushTraces2 ⟨"", "http://m", "http://l", [], 0⟩ none = .ok () := by
  have h := c1_construction_amended ⟨"http://e", "", "", "", 0, []⟩
    ⟨"", "http://m", "http://l", [], 0⟩ ⟨"", "http://m", "http://l", [], 0⟩ none
  exact ⟨h.1.mpr (by decide), h.2.2.1 rfl⟩

/-! ## C4: trace summary and sampling cap -/

/-- The spans of the tree in traversal order: resources, then scopes,
then spans. -/
def allSpanNames (td : Traces) : List String :=
  (List.flatten td).flatten

/-- The innermost `pushTraces` loop collects the next spans up to the
cap of 10. -/
theorem collectSpanNames_eq (l : List String) (acc : List String)
    (h : acc.length ≤ 10) :
    collectSpanNames acc l = acc ++ l.take (10 - acc.length) := by
  induction l generalizing acc with
  | nil => simp [collectSpanNames]
  | cons n rest ih =>
    by_cases hlt : acc.length < 10
    · rw [collectSpanNames, if_pos hlt, ih _ (by simp; omega)]
      have h10 : 10 - acc.length = (10 - (acc ++ [n]).length) + 1 := by
        simp; omega
      rw [h10, List.take_succ_cons]
      simp
    · have h10 : acc.length = 10 := by omega
      rw [collectSpanNames, if_neg hlt]
      simp [h10]

/-- The scope-spans loop collects the flattened remaining spans up to
the cap. -/
theorem collectScopeNames_eq (l : List (List String)) (acc : List String)
    (h : acc.length ≤ 10) :
    collectScopeNames acc l = acc ++ l.flatten.take (10 - acc.length) := by
  induction l generalizing acc with
  | nil => simp [collectScopeNames]
  | cons ss rest ih =>
    by_cases hlt : acc.length < 10
    · rw [collectScopeNames, if_pos hlt, collectSpanNames_eq ss acc (le_of_lt hlt),
          ih _ (by simp [List.length_take]; omega)]
      rw [List.flatten_cons, List.take_append_eq_append_take, List.append_assoc]
      congr 2
      simp [List.length_take]
      omega
    · have h10 : acc.length = 10 := by omega
      rw [collectScopeNames, if_neg hlt]
      simp [h10]

/-- The resource-spans loop collects the fully flattened remaining
spans up to the cap. -/
theorem collectResourceNames_eq (l : List (List (List String))) (acc : List String)
    (h : acc.length ≤ 10) :
    collectResourceNames acc l = acc ++ (l.flatten.flatten).take (10 - acc.length) := by
  induction l generalizing acc with
  | nil => simp [collectResourceNames]
  | cons rs rest ih =>
    by_cases hlt : acc.length < 10
    · rw [collectResourceNames, if_pos hlt, collectScopeNames_eq rs acc (le_of_lt hlt),
          ih _ (by simp [List.length_take]; omega)]
      rw [List.flatten_cons, List.flatten_append, List.take_append_eq_append_take,
          List.append_assoc]
      congr 2
      simp [List.length_take]
      omega
    · have h10 : acc.length = 10 := by omega
      rw [collectResourceNames, if_neg hlt]
      simp [h10]

/-- The inner `spanCount` fold adds the number of spans of one
resource-spans entry. -/
theorem spanCount_inner (rs : List (List String)) (b : Nat) :
    rs.foldl (fun b ss => b + ss.length) b = b + rs.flatten.length := by
  induction rs generalizing b with
  | nil => simp
  | cons ss rest ih => simp [ih, List.length_append]; omega

/-- `SpanCount` is the length of the fully flattened tree. -/
theorem spanCount_eq (td : Traces) : spanCount td = (allSpanNames td).length := by
  show td.foldl (fun a rs => rs.foldl (fun b ss => b + ss.length) a) 0 = _
  rw [allSpanNames]
  induction td with
  | nil => simp
  | cons rs rest ih =>
    simp only [List.foldl_cons, List.flatten_cons, List.flatten_append]
    rw [show List.foldl (fun a rs => rs.foldl (fun b ss => b + ss.length) a)
          (List.foldl (fun b ss => b + ss.length) 0 rs) rest
        = List.foldl (fun b ss => b + ss.length) 0 rs + (rest.flatten.flatten).length
        from ?_]
    · rw [spanCount_inner rs 0, List.length_append]
      omega
    · clear ih
      generalize List.foldl (fun b ss => b + ss.length) 0 rs = a
      induction rest generalizing a with
      | nil => simp
      | cons rs2 rest2 ih2 =>
        simp only [List.foldl_cons, List.flatten_cons, List.flatten_append]
        rw [ih2, spanCount_inner rs2 a, List.length_append]
        omega

/-- C4: the trace payload carries the total span count of the whole
tree and a sample list equal to the first 10 span names in
resource-then-scope-then-span traversal order — so the list never
exceeds 10 entries and its i-th entry is the i-th span encountered. -/
theorem c4_trace_sampling (td : Traces) :
    (encodeTraces td).sampleNames = (allSpanNames td).take 10
    ∧ (encodeTraces td).sampleNames.length ≤ 10
    ∧ (∀ i, i < (encodeTraces td).sampleNames.length →
        (encodeTraces td).sampleNames[i]? = (allSpanNames td)[i]?)
    ∧ (encodeTraces td).spans = (allSpanNames td).length := by
  have hnames : (encodeTraces td).sampleNames = (allSpanNames td).take 10 := by
    show collectResourceNames [] td = _
    rw [collectResourceNames_eq td [] (by simp)]
    simp [allSpanNames]
  refine ⟨hnames, ?_, ?_, spanCount_eq td⟩
  · rw [hnames]
    simp [List.length_take]
  · intro i hi
    rw [hnames] at hi ⊢
    rw [List.length_take] at hi
    rw [List.getElem?_take, if_pos (by omega)]

/-- Witness for C4 on a tree of 12 spans across two resources and
three scopes: the sample stops at 10 and matches traversal order. -/
theorem c4_trace_sampling_witness :
    (encodeTraces [[["a", "b", "c", "d"], ["e", "f", "g"]],
                   [["h", "i", "j", "k", "l"]]]).sampleNames
      = ["a", "b", "c", "d", "e", "f", "g", "h", "i", "j"]
    ∧ (encodeTraces [[["a", "b", "c", "d"], ["e", "f", "g"]],
                     [["h", "i", "j", "k", "l"]]]).sampleNames[3]?
      = (allSpanNames [[["a", "b", "c", "d"], ["e", "f", "g"]],
                       [["h", "i", "j", "k", "l"]]])[3]?
    ∧ (encodeTraces [[["a", "b", "c", "d"], ["e", "f", "g"]],
                     [["h", "i", "j", "k", "l"]]]).spans = 12 := by
  have h := c4_trace_sampling [[["a", "b", "c", "d"], ["e", "f", "g"]],
                               [["h", "i", "j", "k", "l"]]]
  exact ⟨by decide, h.2.2.1 3 (by decide), h.2.2.2.trans (by decide)⟩

/-! ## C2: metric data-point selection -/

/-- The selector the spec describes: the data point with the greatest
timestamp (written from the spec's words, for comparison with the
code's `dps.At(dps.Len()-1)` selection). -/
def specMaxTsDP : List NumberDP → Option NumberDP
  | [] => none
  | dp :: rest =>
    match specMaxTsDP rest with
    | none => some dp
    | some dm => if dm.ts > dp.ts then some dm else some dp

/-- C2 counterexample: a gauge series inserted as
`[(ts 200, 5), (ts 100, 7)]`.  The greatest-timestamp point is
`(200, 5)`, but the encoder records the value `7` of the last inserted
point and timestamp `100`, so the result depends on insertion order
and is not the greatest-timestamp point. -/
theorem c2_metric_greatest_ts_counterexample :
    (encodeResourceMetrics
      ⟨[], [[⟨"m", .gauge [⟨200, .nvInt 5⟩, ⟨100, .nvInt 7⟩]⟩]]⟩).values
      = [("m", .iint 7)]
    ∧ (encodeResourceMetrics
      ⟨[], [[⟨"m", .gauge [⟨200, .nvInt 5⟩, ⟨100, .nvInt 7⟩]⟩]]⟩).timestamp = 100
    ∧ specMaxTsDP [⟨200, .nvInt 5⟩, ⟨100, .nvInt 7⟩] = some ⟨200, .nvInt 5⟩
    ∧ numberValue ⟨200, .nvInt 5⟩ = .iint 5
    ∧ (Iface.iint 7 ≠ .iint 5) ∧ (100 : Nat) ≠ 200 :=
  ⟨rfl, rfl, rfl, rfl, by simp, by decide⟩

/-- In a sorted-by-timestamp series the last element has the greatest
timestamp. -/
theorem pairwise_le_getLast (l : List NumberDP) (h : l ≠ [])
    (hs : l.Pairwise (fun a b => a.ts ≤ b.ts)) :
    ∀ dp ∈ l, dp.ts ≤ (l.getLast h).ts := by
  induction l with
  | nil => cases h rfl
  | cons a t ih =>
    cases t with
    | nil =>
      intro dp hdp
      simp at hdp
      simp [hdp]
    | cons b t2 =>
      have hne : b :: t2 ≠ [] := by simp
      rw [List.getLast_cons hne]
      rcases List.pairwise_cons.mp hs with ⟨ha, hp⟩
      intro dp hdp
      rcases List.mem_cons.mp hdp with rfl | hdp2
      · exact le_trans (ha _ (List.getLast_mem hne)) (le_refl _)
      · exact ih hne hp dp hdp2

/-- C2 amended: for a gauge or sum series with at least one data
point, the encoder records the numeric value of the LAST data point in
the series' storage order (`dps.At(dps.Len()-1)`), and the group
timestamp is that point's timestamp — the greatest-timestamp point is
selected only when the series is sorted by non-decreasing timestamp,
in which case the last point has the greatest timestamp.  Metric
series of other types are omitted from the output. -/
theorem c2_metric_last_point_amended (attrs : List (String × Value)) (name : String)
    (dps : List NumberDP) (h : dps ≠ []) :
    (encodeResourceMetrics ⟨attrs, [[⟨name, .gauge dps⟩]]⟩).values
      = [(name, numberValue (dps.getLast h))]
    ∧ (encodeResourceMetrics ⟨attrs, [[⟨name, .gauge dps⟩]]⟩).timestamp
      = (dps.getLast h).ts
    ∧ (encodeResourceMetrics ⟨attrs, [[⟨name, .sum dps⟩]]⟩).values
      = [(name, numberValue (dps.getLast h))]
    ∧ (encodeResourceMetrics ⟨attrs, [[⟨name, .sum dps⟩]]⟩).timestamp
      = (dps.getLast h).ts
    ∧ (encodeResourceMetrics ⟨attrs, [[⟨name, .other⟩]]⟩).values = []
    ∧ (dps.Pairwise (fun a b => a.ts ≤ b.ts) →
        ∀ dp ∈ dps, dp.ts ≤ (dps.getLast h).ts) := by
  have hlast : dps.getLast? = some (dps.getLast h) := List.getLast?_eq_getLast dps h
  refine ⟨?_, ?_, ?_, ?_, rfl, pairwise_le_getLast dps h⟩ <;>
    simp [encodeResourceMetrics, metricStep, hlast, insertGo] <;> omega

/-- Witness for C2 at a two-point sorted gauge series. -/
theorem c2_metric_last_point_amended_witness :
    (encodeResourceMetrics
      ⟨[], [[⟨"m", .gauge [⟨100, .nvInt 1⟩, ⟨200, .nvInt 2⟩]⟩]]⟩).values
      = [("m", .iint 2)]
    ∧ (∀ dp ∈ [(⟨100, .nvInt 1⟩ : NumberDP), ⟨200, .nvInt 2⟩],
        dp.ts ≤ (([⟨100, .nvInt 1⟩, ⟨200, .nvInt 2⟩] :
          List NumberDP).getLast (by simp)).ts) := by
  have h := c2_metric_last_point_amended [] "m"
    [⟨100, .nvInt 1⟩, ⟨200, .nvInt 2⟩] (by simp)
  exact ⟨h.1, h.2.2.2.2.2 (by simp)⟩

/-! ## C6: HTTP outcome classification -/

/-- C6 counterexample: two non-2xx responses with the same status but
different bodies (differing already in their first byte, hence in any
first-4096-byte excerpt) produce IDENTICAL errors in the `postJSON`
transport — its error (`"monitoring exporter: %s -> HTTP %d"`) carries
the URL and status only, no body excerpt.  The `doPOST` transport does
distinguish them. -/
theorem c6_http_classification_counterexample :
    postJSONClassify "http://u" (some ⟨500, [97]⟩)
      = postJSONClassify "http://u" (some ⟨500, [98]⟩)
    ∧ ([97] : List Nat).take 4096 ≠ ([98] : List Nat).take 4096
    ∧ doPOSTClassify (some ⟨500, [97]⟩) ≠ doPOSTClassify (some ⟨500, [98]⟩) :=
  ⟨rfl, by decide, by simp [doPOSTClassify]⟩

/-- C6 amended: in both transports a status in [200,300) is success
and a connection-level failure is an error; outside that range both
error, the `doPOST` error carrying the status code and the first 4096
bytes of the response body, the `postJSON` error carrying the URL and
status code only (no body excerpt). -/
theorem c6_http_classification_amended (u : String) (r : Response) :
    (200 ≤ r.status ∧ r.status < 300 →
      doPOSTClassify (some r) = .ok () ∧ postJSONClassify u (some r) = .ok ())
    ∧ (r.status < 200 ∨ 300 ≤ r.status →
      doPOSTClassify (some r) = .error (.status r.status (r.body.take 4096))
      ∧ postJSONClassify u (some r) = .error (.status u r.status))
    ∧ doPOSTClassify none = .error .transport
    ∧ postJSONClassify u none = .error .transport := by
  refine ⟨?_, ?_, rfl, rfl⟩
  · intro h
    constructor <;> simp [doPOSTClassify, postJSONClassify] <;> omega
  · intro h
    constructor <;>
      · simp only [doPOSTClassify, postJSONClassify]
        rw [if_pos (by omega)]

/-- Witness for C6 at a 204 success and a 503 failure with body
`[104, 105]`. -/
theorem c6_http_classification_amended_witness :
    doPOSTClassify (some ⟨204, []⟩) = .ok ()
    ∧ doPOSTClassify (some ⟨503, [104, 105]⟩) = .error (.status 503 [104, 105])
    ∧ postJSONClassify "http://u" (some ⟨503, [104, 105]⟩)
      = .error (.status "http://u" 503) := by
  refine ⟨((c6_http_classification_amended "http://u" ⟨204, []⟩).1 (by decide)).1, ?_, ?_⟩
  · exact ((c6_http_classification_amended "http://u" ⟨503, [104, 105]⟩).2.1
      (by decide)).1.trans rfl
  · exact ((c6_http_classification_amended "http://u" ⟨503, [104, 105]⟩).2.1
      (by decide)).2

/-! ## C7: header merging -/

/-- C7 counterexample: with no configured headers, a `postJSON`
request carries only `Content-Type` — the default
`Accept: application/json` the claim promises for every request is
absent in that transport. -/
theorem c7_headers_counterexample :
    postJSONHeaders [] = [("Content-Type", "application/json")]
    ∧ lookupA (postJSONHeaders []) "Accept" = none
    ∧ lookupA (buildHeaders []) "Accept" = some "application/json" :=
  ⟨rfl, rfl, rfl⟩

/-- `orElseA a b`: the first lookup result when present, otherwise the
second. -/
def orElseA {α : Type} (a b : Option α) : Option α :=
  match a with
  | some v => some v
  | none => b

/-- Looking up after a Go map assignment: the assigned key maps to the
new value and every other key is untouched. -/
theorem lookupA_insertGo {α : Type} (init : List (String × α)) (k0 k : String) (v0 : α) :
    lookupA (insertGo init k0 v0) k = if k0 = k then some v0 else lookupA init k := by
  induction init with
  | nil => simp [insertGo, lookupA]
  | cons p t ih =>
    obtain ⟨k1, w⟩ := p
    by_cases h1 : k1 = k0
    · subst h1
      by_cases h2 : k1 = k <;> simp [insertGo, lookupA, h2]
    · by_cases h2 : k1 = k
      · subst h2
        have : ¬ k0 = k1 := fun hh => h1 hh.symm
        simp [insertGo, lookupA, h1, this]
      · simp [insertGo, lookupA, h1, h2, ih]

/-- A key absent from the key list is not bound. -/
theorem lookupA_eq_none_of_hasKey_false {α : Type} (l : List (String × α)) (k : String)
    (h : hasKey l k = false) : lookupA l k = none := by
  induction l with
  | nil => rfl
  | cons p t ih =>
    obtain ⟨k1, w⟩ := p
    simp only [hasKey, Bool.or_eq_false_iff, decide_eq_false_iff_not] at h
    simp [lookupA, h.1, ih h.2]

/-- Folding Go map assignments for a configured map with distinct keys:
a key bound in the configured map reads its configured value, any
other key reads the initial (default) map. -/
theorem lookupA_goMapOfPairs {α : Type} (l : List (String × α))
    (init : List (String × α)) (hnd : distinctKeys l = true) (k : String) :
    lookupA (goMapOfPairs l init) k = orElseA (lookupA l k) (lookupA init k) := by
  induction l generalizing init with
  | nil => simp [goMapOfPairs, lookupA, orElseA]
  | cons p t ih =>
    obtain ⟨k0, v0⟩ := p
    simp only [distinctKeys, Bool.and_eq_true, Bool.not_eq_eq_eq_not, Bool.not_true] at hnd
    rw [goMapOfPairs, ih _ hnd.2]
    by_cases hk : k0 = k
    · subst hk
      rw [lookupA_eq_none_of_hasKey_false t k0 hnd.1]
      simp [lookupA, lookupA_insertGo, orElseA]
    · cases hl : lookupA t k <;> simp [lookupA, hk, hl, lookupA_insertGo, orElseA]

/-- C7 amended: in the main variant (`newMonitoringExporter` +
`doPOST`) the request headers are the defaults
`Content-Type: application/json` and `Accept: application/json`
overridden by the configured map, the configured value winning on a
key collision; in the `postJSON` variant only `Content-Type` is
defaulted before the configured map is applied — `Accept` is not. -/
theorem c7_headers_amended (cfgH : List (String × String))
    (hnd : distinctKeys cfgH = true) (k : String) :
    lookupA (buildHeaders cfgH) k = orElseA (lookupA cfgH k) (lookupA defaultHeaders k)
    ∧ lookupA (postJSONHeaders cfgH) k =
      orElseA (lookupA cfgH k) (lookupA [("Content-Type", "application/json")] k) := by
  unfold buildHeaders postJSONHeaders
  exact ⟨lookupA_goMapOfPairs cfgH defaultHeaders hnd k,
         lookupA_goMapOfPairs cfgH [("Content-Type", "application/json")] hnd k⟩

/-- Witness for C7: a configured `Accept` overrides the default, and
an unconfigured `Content-Type` keeps its default value. -/
theorem c7_headers_amended_witness :
    lookupA (buildHeaders [("Accept", "text/plain")]) "Accept" = some "text/plain"
    ∧ lookupA (buildHeaders [("Accept", "text/plain")]) "Content-Type"
      = some "application/json" := by
  refine ⟨?_, ?_⟩
  · exact (c7_headers_amended [("Accept", "text/plain")] (by decide) "Accept").1.trans
      (by decide)
  · exact (c7_headers_amended [("Accept", "text/plain")] (by decide) "Content-Type").1.trans
      (by decide)

/-! ## C5: lossless round-trip through the JSON body -/

/-- Map a function over the values of an association list. -/
def mapSnd {α β : Type} (f : α → β) (l : List (String × α)) : List (String × β) :=
  l.map (fun kv => (kv.1, f kv.2))

/-- `pairsToIfaces` converts each binding's value. -/
theorem pairsToIfaces_eq (l : List (String × Value)) :
    pairsToIfaces l = mapSnd valueToIface l := by
  induction l with
  | nil => rfl
  | cons p t ih => obtain ⟨k, v⟩ := p; simp [pairsToIfaces, mapSnd] at ih ⊢; exact ih

/-- `valuesToIfaces` converts each element. -/
theorem valuesToIfaces_eq (l : List Value) :
    valuesToIfaces l = l.map valueToIface := by
  induction l with
  | nil => rfl
  | cons v t ih => simp [valuesToIfaces, ih]

/-- `marshalList` marshals each element. -/
theorem marshalList_eq (l : List Iface) : marshalList l = l.map goMarshal := by
  induction l with
  | nil => rfl
  | cons v t ih => simp [marshalList, ih]

/-- `marshalPairs` marshals each binding's value. -/
theorem marshalPairs_eq (l : List (String × Iface)) :
    marshalPairs l = mapSnd goMarshal l := by
  induction l with
  | nil => rfl
  | cons p t ih => obtain ⟨k, v⟩ := p; simp [marshalPairs, mapSnd] at ih ⊢; exact ih

/-- `unmarshalList` decodes each element. -/
theorem unmarshalList_eq (l : List Json) : unmarshalList l = l.map goUnmarshalAny := by
  induction l with
  | nil => rfl
  | cons v t ih => simp [unmarshalList, ih]

/-- `unmarshalPairs` decodes each binding's value. -/
theorem unmarshalPairs_eq (l : List (String × Json)) :
    unmarshalPairs l = mapSnd goUnmarshalAny l := by
  induction l with
  | nil => rfl
  | cons p t ih => obtain ⟨k, v⟩ := p; simp [unmarshalPairs, mapSnd] at ih ⊢; exact ih

/-- Two value maps compose. -/
theorem mapSnd_mapSnd {α β γ : Type} (f : α → β) (g : β → γ) (l : List (String × α)) :
    mapSnd g (mapSnd f l) = mapSnd (fun x => g (f x)) l := by
  simp [mapSnd, List.map_map, Function.comp]

/-- Mapping values preserves the key set. -/
theorem hasKey_mapSnd {α β : Type} (f : α → β) (l : List (String × α)) (k : String) :
    hasKey (mapSnd f l) k = hasKey l k := by
  induction l with
  | nil => rfl
  | cons p t ih => obtain ⟨k1, v⟩ := p; simp [mapSnd, hasKey] at ih ⊢; rw [ih]

/-- Mapping values preserves key distinctness. -/
theorem distinctKeys_mapSnd {α β : Type} (f : α → β) (l : List (String × α)) :
    distinctKeys (mapSnd f l) = distinctKeys l := by
  induction l with
  | nil => rfl
  | cons p t ih =>
    obtain ⟨k1, v⟩ := p
    show distinctKeys ((k1, f v) :: mapSnd f t) = _
    rw [distinctKeys, distinctKeys, hasKey_mapSnd, ih]

/-- Lookup through a value map. -/
theorem lookupA_mapSnd {α β : Type} (f : α → β) (l : List (String × α)) (k : String) :
    lookupA (mapSnd f l) k = (lookupA l k).map f := by
  induction l with
  | nil => rfl
  | cons p t ih =>
    obtain ⟨k1, v⟩ := p
    show lookupA ((k1, f v) :: mapSnd f t) k = _
    by_cases h : k1 = k <;> simp [lookupA, h, ih]

/-- A key bound in the list. -/
theorem hasKey_of_mem {α : Type} {l : List (String × α)} {kv : String × α}
    (h : kv ∈ l) : hasKey l kv.1 = true := by
  induction l with
  | nil => cases h
  | cons p t ih =>
    obtain ⟨k1, v⟩ := p
    rcases List.mem_cons.mp h with rfl | ht
    · simp [hasKey]
    · simp [hasKey, ih ht]

/-- An unbound key looks up to nothing — and conversely. -/
theorem lookupA_isSome_of_hasKey {α : Type} (l : List (String × α)) (k : String)
    (h : hasKey l k = true) : (lookupA l k).isSome = true := by
  induction l with
  | nil => cases h
  | cons p t ih =>
    obtain ⟨k1, v⟩ := p
    by_cases hk : k1 = k
    · simp [lookupA, hk]
    · simp only [hasKey, Bool.or_eq_true, decide_eq_true_eq] at h
      rcases h with h | h
      · exact absurd h hk
      · simp [lookupA, hk, ih h]

/-- Under distinct keys, membership determines the lookup result. -/
theorem lookupA_of_mem_distinct {α : Type} {l : List (String × α)} {k : String} {v : α}
    (hnd : distinctKeys l = true) (h : (k, v) ∈ l) : lookupA l k = some v := by
  induction l with
  | nil => cases h
  | cons p t ih =>
    obtain ⟨k1, w⟩ := p
    simp only [distinctKeys, Bool.and_eq_true, Bool.not_eq_eq_eq_not, Bool.not_true] at hnd
    rcases List.mem_cons.mp h with heq | ht
    · cases heq
      simp [lookupA]
    · have hne : k1 ≠ k := by
        intro hk
        subst hk
        rw [hasKey_of_mem ht] at hnd
        exact Bool.true_eq_false.mp hnd.1
      simp [lookupA, hne, ih hnd.2 ht]

/-- Inserting a fresh key appends it. -/
theorem insertGo_append {α : Type} (acc : List (String × α)) (k : String) (v : α)
    (h : hasKey acc k = false) : insertGo acc k v = acc ++ [(k, v)] := by
  induction acc with
  | nil => rfl
  | cons p t ih =>
    obtain ⟨k1, w⟩ := p
    simp only [hasKey, Bool.or_eq_false_iff, decide_eq_false_iff_not] at h
    simp [insertGo, h.1, ih h.2]

/-- Folding fresh, pairwise-distinct assignments appends them in
order. -/
theorem goMapOfPairs_distinct {α : Type} (l : List (String × α)) :
    ∀ acc : List (String × α), (∀ p ∈ l, hasKey acc p.1 = false) →
      distinctKeys l = true → goMapOfPairs l acc = acc ++ l := by
  induction l with
  | nil => intro acc _ _; simp [goMapOfPairs]
  | cons p t ih =>
    intro acc hdisj hnd
    obtain ⟨k, v⟩ := p
    simp only [distinctKeys, Bool.and_eq_true, Bool.not_eq_eq_eq_not, Bool.not_true] at hnd
    rw [goMapOfPairs, insertGo_append acc k v (hdisj (k, v) (List.mem_cons_self _ _)),
        ih (acc ++ [(k, v)]) ?_ hnd.2, List.append_assoc]
    · rfl
    · intro p hp
      have h1 : hasKey acc p.1 = false := hdisj p (List.mem_cons_of_mem _ hp)
      have h2 : k ≠ p.1 := by
        intro hk
        subst hk
        rw [hasKey_of_mem hp] at hnd
        exact Bool.true_eq_false.mp hnd.1
      clear hdisj ih
      induction acc with
      | nil => simp [hasKey, h2]
      | cons q t2 ih2 =>
        obtain ⟨kq, wq⟩ := q
        simp only [hasKey, Bool.or_eq_false_iff, decide_eq_false_iff_not] at h1 ⊢
        exact ⟨h1.1, by simpa [hasKey, h2] using ih2 h1.2⟩

/-- Building a Go map from pairwise-distinct bindings reproduces
them. -/
theorem goMapOfPairs_nil {α : Type} (l : List (String × α))
    (hnd : distinctKeys l = true) : goMapOfPairs l [] = l := by
  simpa using goMapOfPairs_distinct l [] (fun p _ => rfl) hnd

/-- Every key of a value-mapped copy is covered by the original. -/
theorem keysCovered_mapSnd {α : Type} (f : Value → α)
    (l : List (String × Value)) (m : List (String × α))
    (hm : m = mapSnd f l) : keysCovered m l = true := by
  subst hm
  rw [keysCovered, List.all_eq_true]
  intro kw hkw
  rcases List.mem_map.mp hkw with ⟨kv, hkv, rfl⟩
  exact lookupA_isSome_of_hasKey l kv.1 (hasKey_of_mem hkv)

/-- Pointwise structural equality lifts to lists. -/
theorem structEqList_of_forall (l : List Value) (f : Value → Iface)
    (h : ∀ x ∈ l, structEq x (f x) = true) : structEqList l (l.map f) = true := by
  induction l with
  | nil => rfl
  | cons v t ih =>
    rw [List.map_cons, structEqList, Bool.and_eq_true]
    exact ⟨h v (List.mem_cons_self _ _), ih (fun x hx => h x (List.mem_cons_of_mem _ hx))⟩

/-- Pointwise structural equality lifts to key-based map comparison
when the keys are distinct. -/
theorem structEqMapFwd_of_forall (L : List (String × Value)) (f : Value → Iface)
    (hnd : distinctKeys L = true)
    (h : ∀ kv ∈ L, structEq kv.2 (f kv.2) = true) :
    structEqMapFwd L (mapSnd f L) = true := by
  have main : ∀ sub : List (String × Value), (∀ kv ∈ sub, kv ∈ L) →
      structEqMapFwd sub (mapSnd f L) = true := by
    intro sub
    induction sub with
    | nil => intro _; rfl
    | cons kv t ih =>
      intro hsub
      obtain ⟨k, v⟩ := kv
      rw [structEqMapFwd, Bool.and_eq_true]
      constructor
      · rw [lookupA_mapSnd,
            lookupA_of_mem_distinct hnd (hsub (k, v) (List.mem_cons_self _ _))]
        exact h (k, v) (hsub (k, v) (List.mem_cons_self _ _))
      · exact ih (fun kv2 hkv2 => hsub kv2 (List.mem_cons_of_mem _ hkv2))
  exact main L (fun kv hkv => hkv)

/-- Elements of a bytes-free list are bytes-free. -/
theorem noBytesList_mem {l : List Value} (h : noBytesList l = true) :
    ∀ x ∈ l, noBytes x = true := by
  induction l with
  | nil => intro x hx; cases hx
  | cons v t ih =>
    rw [noBytesList, Bool.and_eq_true] at h
    intro x hx
    rcases List.mem_cons.mp hx with rfl | hx2
    · exact h.1
    · exact ih h.2 x hx2

/-- Values of a bytes-free binding list are bytes-free. -/
theorem noBytesPairs_mem {l : List (String × Value)} (h : noBytesPairs l = true) :
    ∀ kv ∈ l, noBytes kv.2 = true := by
  induction l with
  | nil => intro kv hkv; cases hkv
  | cons p t ih =>
    obtain ⟨k, v⟩ := p
    rw [noBytesPairs, Bool.and_eq_true] at h
    intro kv hkv
    rcases List.mem_cons.mp hkv with rfl | hkv2
    · exact h.1
    · exact ih h.2 kv hkv2

/-- Elements of a unique-keys list are unique-keys values. -/
theorem uniqKeysList_mem {l : List Value} (h : uniqKeysList l = true) :
    ∀ x ∈ l, uniqKeys x = true := by
  induction l with
  | nil => intro x hx; cases hx
  | cons v t ih =>
    rw [uniqKeysList, Bool.and_eq_true] at h
    intro x hx
    rcases List.mem_cons.mp hx with rfl | hx2
    · exact h.1
    · exact ih h.2 x hx2

/-- Values of a unique-keys binding list are unique-keys values. -/
theorem uniqKeysPairs_mem {l : List (String × Value)} (h : uniqKeysPairs l = true) :
    ∀ kv ∈ l, uniqKeys kv.2 = true := by
  induction l with
  | nil => intro kv hkv; cases hkv
  | cons p t ih =>
    obtain ⟨k, v⟩ := p
    rw [uniqKeysPairs, Bool.and_eq_true] at h
    intro kv hkv
    rcases List.mem_cons.mp hkv with rfl | hkv2
    · exact h.1
    · exact ih h.2 kv hkv2

/-- An exactly representable number is decoded unchanged. -/
theorem roundFloat64_exact (q : ℚ) (h : isFloat64Exact q = true) :
    roundFloat64 q = q := by
  simp [roundFloat64, h]

/-- Elements of a float-safe list are float-safe. -/
theorem floatSafeList_mem {l : List Value} (h : floatSafeList l = true) :
    ∀ x ∈ l, floatSafe x = true := by
  induction l with
  | nil => intro x hx; cases hx
  | cons v t ih =>
    rw [floatSafeList, Bool.and_eq_true] at h
    intro x hx
    rcases List.mem_cons.mp hx with rfl | hx2
    · exact h.1
    · exact ih h.2 x hx2

/-- Values of a float-safe binding list are float-safe. -/
theorem floatSafePairs_mem {l : List (String × Value)} (h : floatSafePairs l = true) :
    ∀ kv ∈ l, floatSafe kv.2 = true := by
  induction l with
  | nil => intro kv hkv; cases hkv
  | cons p t ih =>
    obtain ⟨k, v⟩ := p
    rw [floatSafePairs, Bool.and_eq_true] at h
    intro kv hkv
    rcases List.mem_cons.mp hkv with rfl | hkv2
    · exact h.1
    · exact ih h.2 kv hkv2

/-- The round trip: every bytes-free, float-safe attribute value with
distinct map keys converts, marshals, and re-parses to a tree
structurally equal to the original (numbers compared by numeric value,
maps by key). -/
theorem roundtrip_structEq (v : Value) (hb : noBytes v = true)
    (hu : uniqKeys v = true) (hf : floatSafe v = true) :
    structEq v (goUnmarshalAny (goMarshal (valueToIface v))) = true := by
  match v with
  | .vstr s => simp [valueToIface, goMarshal, goUnmarshalAny, structEq]
  | .vint n =>
    simp only [floatSafe] at hf
    simp [valueToIface, goMarshal, goUnmarshalAny, structEq, roundFloat64_exact _ hf]
  | .vdouble q =>
    simp only [floatSafe] at hf
    simp [valueToIface, goMarshal, goUnmarshalAny, structEq, roundFloat64_exact _ hf]
  | .vbool b => simp [valueToIface, goMarshal, goUnmarshalAny, structEq]
  | .vempty => simp [valueToIface, goMarshal, goUnmarshalAny, structEq]
  | .vbytes bs => exact absurd hb (by simp [noBytes])
  | .vslice l =>
    simp only [noBytes] at hb
    simp only [uniqKeys] at hu
    simp only [floatSafe] at hf
    simp only [valueToIface, goMarshal, goUnmarshalAny, structEq]
    rw [valuesToIfaces_eq, marshalList_eq, unmarshalList_eq, List.map_map, List.map_map]
    apply structEqList_of_forall
    intro x hx
    exact roundtrip_structEq x (noBytesList_mem hb x hx) (uniqKeysList_mem hu x hx)
      (floatSafeList_mem hf x hx)
  | .vmap l =>
    simp only [noBytes] at hb
    simp only [uniqKeys, Bool.and_eq_true] at hu
    simp only [floatSafe] at hf
    simp only [valueToIface, goMarshal, goUnmarshalAny, structEq]
    rw [pairsToIfaces_eq, goMapOfPairs_nil _ (by rw [distinctKeys_mapSnd]; exact hu.1),
        marshalPairs_eq, unmarshalPairs_eq, mapSnd_mapSnd, mapSnd_mapSnd,
        Bool.and_eq_true]
    constructor
    · apply structEqMapFwd_of_forall l _ hu.1
      intro kv hkv
      exact roundtrip_structEq kv.2 (noBytesPairs_mem hb kv hkv)
        (uniqKeysPairs_mem hu.2 kv hkv) (floatSafePairs_mem hf kv hkv)
    · exact keysCovered_mapSnd _ l _ rfl
termination_by sizeOf v
decreasing_by
  · have h1 := List.sizeOf_lt_of_mem hx
    simp only [Value.vslice.sizeOf_spec]
    omega
  · have h1 := List.sizeOf_lt_of_mem hkv
    obtain ⟨k, x⟩ := kv
    simp only [Value.vmap.sizeOf_spec, Prod.mk.sizeOf_spec] at h1 ⊢
    omega

/-- The log encoder's `attrs` field is exactly the converted attribute
map. -/
theorem attrsToMap_none (attrs : List (String × Value)) :
    Iface.iobj (attrsToMap attrs none) = valueToIface (.vmap attrs) := by
  show Iface.iobj (attrsToMap attrs none) = .iobj (goMapOfPairs (pairsToIfaces attrs) [])
  rw [pairsToIfaces_eq]
  rfl

/-- C5 counterexample, two independent failures of "every
AttributeValue round-trips losslessly".  (1) The byte-sequence value
`[0]` encodes to the same JSON as the string `"AA=="` (base64), so the
encoder is not injective on bytes and re-parsing yields the string,
not the bytes.  (2) The int64 value `2^53 + 1` is re-parsed by
`json.Unmarshal`'s float64 decoding to `2^53`, numerically different
from the original — so the round trip also fails on byte-free,
distinct-key trees. -/
theorem c5_roundtrip_counterexample :
    structEq (.vbytes [0]) (goUnmarshalAny (goMarshal (valueToIface (.vbytes [0])))) = false
    ∧ goMarshal (valueToIface (.vbytes [0])) = goMarshal (valueToIface (.vstr "AA=="))
    ∧ Value.vbytes [0] ≠ .vstr "AA=="
    ∧ roundFloat64 (9007199254740993 : ℚ) = (9007199254740992 : ℚ)
    ∧ structEq (.vint 9007199254740993)
        (goUnmarshalAny (goMarshal (valueToIface (.vint 9007199254740993)))) = false
    ∧ noBytes (.vint 9007199254740993) = true
    ∧ uniqKeys (.vint 9007199254740993) = true :=
  ⟨rfl, rfl, by simp, by decide, by decide, rfl, rfl⟩

/-- C5 amended: for every log record whose attribute map contains no
byte-sequence values, whose numeric leaves are exactly representable
as float64 (for doubles that is their typing invariant; for int64 it
restricts to odd part below `2^53`), and whose map nodes have distinct
keys, re-parsing the encoded JSON body and projecting the `attrs`
field yields a tree structurally equal to the original attributes —
numbers compared by numeric value (re-parsed JSON numbers carry no
int/double kind) and maps compared by key.  Byte sequences do not
round-trip (they come back as base64 strings) and int64 values above
`2^53` lose precision in the float64 decoding. -/
theorem c5_roundtrip_amended (resAttrs : List (String × Value)) (lr : LogRecord)
    (hb : noBytes (.vmap lr.attrs) = true) (hu : uniqKeys (.vmap lr.attrs) = true)
    (hf : floatSafe (.vmap lr.attrs) = true) :
    ∃ a : Iface,
      objLookup (goUnmarshalAny (goMarshal (encodeLogRecord resAttrs lr))) "attrs" = some a
      ∧ structEq (.vmap lr.attrs) a = true := by
  refine ⟨goUnmarshalAny (goMarshal (.iobj (attrsToMap lr.attrs none))), ?_, ?_⟩
  · have he : encodeLogRecord resAttrs lr =
        .iobj [("timestamp", .iint (Int.ofNat lr.ts)),
               ("severity", .istr lr.severityText),
               ("body", valueToIface lr.body),
               ("attrs", .iobj (attrsToMap lr.attrs none)),
               ("resource", .iobj (attrsToMap resAttrs none))] := rfl
    rw [he]
    show objLookup (.iobj (unmarshalPairs (marshalPairs _))) "attrs" = _
    simp only [marshalPairs, unmarshalPairs, objLookup, lookupA]
    rw [if_neg (by decide), if_neg (by decide), if_neg (by decide)]
    simp
  · rw [attrsToMap_none]
    exact roundtrip_structEq (.vmap lr.attrs) hb hu hf

/-- Witness for C5 at the spec's example attributes
`a: 1, b: "x", c: [true, false]`. -/
theorem c5_roundtrip_amended_witness :
    ∃ a : Iface,
      objLookup (goUnmarshalAny (goMarshal (encodeLogRecord []
        ⟨5, "INFO", .vstr "hello",
         [("a", .vint 1), ("b", .vstr "x"),
          ("c", .vslice [.vbool true, .vbool false])]⟩))) "attrs" = some a
      ∧ structEq (.vmap [("a", .vint 1), ("b", .vstr "x"),
          ("c", .vslice [.vbool true, .vbool false])]) a = true :=
  c5_roundtrip_amended []
    ⟨5, "INFO", .vstr "hello",
     [("a", .vint 1), ("b", .vstr "x"),
      ("c", .vslice [.vbool true, .vbool false])]⟩ (by decide) (by decide) (by decide)

end OtelMon
